import Mathlib

/-!
Shallow embedding of the BLS aggregation core of this repository
(src/src/aggregates.rs) over a spec-modelled curve layer.

The curve/pairing layer (files g1.rs, g2.rs, amcl_utils.rs, errors.rs,
keys.rs, signature.rs of this repository) is not under src/, so it is
modelled from the spec: G1 and G2 are additively written cyclic groups,
G1 of prime order 13, G2 of order 26 with a prime-order subgroup of
order 13 and cofactor 2.  Every point carries, besides its mathematical
value, an abstract tag for the internal projective representation
(tag 0 meaning affine-normalized); structure equality is therefore
representational, and mathematical equality is equality after affine
normalization, exactly as the spec demands of the equality of aggregates.
The pairing is modelled with the target group written additively as
ZMod 13: a Miller term of a (G2, G1) pair, a multi-pairing accumulator
as the list of its terms, the Miller loop as the sum of the term values,
and the final exponentiation as the group endomorphism of multiplication
by the unit 2, which preserves and reflects the identity.

Machine integers of the batch-verification code (the 8 random bytes read
as an i64 and its absolute value) are embedded as Int with explicit
two
complement reduction; the absolute value wraps on the minimal i64
as in a Rust release build.  The while loop drawing random scalars is
embedded with explicit fuel and an Option result, Option.none standing
for non-termination of the loop.  Mutation of Rust values is embedded by
explicit state passing: a method taking a mutable receiver returns the
updated value, and the verification entry points, whose receivers are
immutable references, also return the post-state of every aggregate they
consume, so that absence of mutation is a provable statement.  The
instrumented functions (suffix T) additionally return a count of the
pairing evaluations, or of the affine normalizations, they perform.
-/

namespace MilagroBLS

/-- Modelled from the spec: the decoding error surfaced by the byte codec
(missing errors.rs): wrong byte length or invalid encoding-flag bits. -/
inductive DecodeError where
  | IncorrectSize : DecodeError
  | BadPoint : DecodeError
deriving DecidableEq

/-- Modelled from the spec: a G1 curve point (missing g1.rs and the external
curve layer).  val is the mathematical point in a cyclic group of prime
order 13; rep is an abstract tag for the internal projective
representation, 0 meaning affine-normalized. -/
structure G1Point where
  val : ZMod 13
  rep : Nat
deriving DecidableEq

/-- Modelled from the spec: a G2 curve point (missing g2.rs and the external
curve layer), in a cyclic group of order 26 whose prime-order subgroup is
the set of even elements (cofactor 2). -/
structure G2Point where
  val : ZMod 26
  rep : Nat
deriving DecidableEq

/-- Modelled from the spec: the G1 identity (point at infinity), affine. -/
def G1Point.new : G1Point := ⟨0, 0⟩

/-- Modelled from the spec: G1 point addition; the result is left in the
internal projective representation (never normalized by add itself). -/
def G1Point.add (p q : G1Point) : G1Point := ⟨p.val + q.val, p.rep + q.rep + 1⟩

/-- Modelled from the spec: affine normalization of a G1 point, with the
count of affine-normalization calls it performs. -/
def G1Point.affineT (p : G1Point) : G1Point × Nat := (⟨p.val, 0⟩, 1)

/-- Affine normalization of a G1 point (result only). -/
def G1Point.affine (p : G1Point) : G1Point := (p.affineT).1

/-- Modelled from the spec: G1 negation; representation is preserved. -/
def G1Point.neg (p : G1Point) : G1Point := ⟨-p.val, p.rep⟩

/-- Modelled from the spec: the fixed G1 generator constant, affine. -/
def G1Point.generator : G1Point := ⟨1, 0⟩

/-- Modelled from the spec: scalar multiplication of a G1 point by a big
integer; the result is left in projective representation. -/
def G1Point.mul (p : G1Point) (r : Int) : G1Point := ⟨(r : ZMod 13) * p.val, p.rep + 1⟩

/-- Modelled from the spec: the G2 identity (point at infinity), affine. -/
def G2Point.new : G2Point := ⟨0, 0⟩

/-- Modelled from the spec: G2 point addition, not normalizing. -/
def G2Point.add (p q : G2Point) : G2Point := ⟨p.val + q.val, p.rep + q.rep + 1⟩

/-- Modelled from the spec: affine normalization of a G2 point, with the
count of affine-normalization calls it performs. -/
def G2Point.affineT (p : G2Point) : G2Point × Nat := (⟨p.val, 0⟩, 1)

/-- Affine normalization of a G2 point (result only). -/
def G2Point.affine (p : G2Point) : G2Point := (p.affineT).1

/-- Modelled from the spec: scalar multiplication of a G2 point by a big
integer; the result is left in projective representation. -/
def G2Point.mul (p : G2Point) (r : Int) : G2Point := ⟨(r : ZMod 26) * p.val, p.rep + 1⟩

/-- Modelled from the spec: the subgroup-membership check on G2, true iff
the point lies in the prime-order subgroup (the even elements). -/
def subgroup_check_g2 (q : G2Point) : Bool := decide ((13 : ZMod 26) * q.val = 0)

/-- Modelled from the spec: the deterministic, domain-separated hash of a
message to the prime-order subgroup of G2; the returned point is not yet
affine-normalized. -/
def hash_to_curve_g2 (msg : List Nat) : G2Point :=
  ⟨((2 * (msg.foldl (fun a b => a + b) 0 % 13) : Nat) : ZMod 26), 1⟩

/-- Modelled from the spec: the value of one Miller-loop term of a
(G2, G1) pair of mathematical points. -/
def millerTerm (q : ZMod 26) (p : ZMod 13) : ZMod 13 := ((q.val / 2 : Nat) : ZMod 13) * p

/-- Modelled from the spec: the empty multi-pairing accumulator. -/
def pair_initmp : List (ZMod 26 × ZMod 13) := []

/-- Modelled from the spec: add one (G2, G1) term to the multi-pairing
accumulator. -/
def pair_another (r : List (ZMod 26 × ZMod 13)) (q : G2Point) (p : G1Point) :
    List (ZMod 26 × ZMod 13) := (q.val, p.val) :: r

/-- Modelled from the spec: the combined Miller loop over all accumulated
terms (the sum of the term values, the target group written additively). -/
def pair_miller (r : List (ZMod 26 × ZMod 13)) : ZMod 13 :=
  (r.map (fun t => millerTerm t.1 t.2)).sum

/-- Modelled from the spec: the final exponentiation, an endomorphism of the
target group that preserves and reflects the identity (multiplication by
the unit 2 in the additive model). -/
def pair_fexp (v : ZMod 13) : ZMod 13 := 2 * v

/-- Modelled from the spec: the test of a target-group element for the
multiplicative identity (0 in the additive model). -/
def isunity (v : ZMod 13) : Bool := decide (v = 0)

/-- Modelled from the spec: the mathematical pairing of a (G2, G1) pair of
points: final exponentiation of the single Miller term. -/
def pairingE (q : ZMod 26) (p : ZMod 13) : ZMod 13 := pair_fexp (millerTerm q p)

/-- Modelled from the spec: the combined paired-pairing check used by the
single-aggregate verifications: evaluates the product of the pairings of
(s, ng) and (h, k) in one computation (one Miller accumulation, one final
exponentiation) and tests it for the identity; also returns the count of
pairing evaluations performed (one). -/
def ate2_evaluationT (s : G2Point) (ng : G1Point) (h : G2Point) (k : G1Point) : Bool × Nat :=
  (isunity (pair_fexp (pair_miller (pair_another (pair_another pair_initmp s ng) h k))), 1)

/-- Modelled from the spec: compressed-encoding of a G1 point: a fixed
2-byte layout, a flag byte 192 and the point value.  Encoding is of the
mathematical point. -/
def G1Point.as_bytes (p : G1Point) : List Nat := [192, p.val.val]

/-- Modelled from the spec: decoding of a G1 point: fails on wrong length
or invalid flag bits; performs no subgroup or curve-membership check; the
decoded point is affine. -/
def G1Point.from_bytes (b : List Nat) : Except DecodeError G1Point :=
  match b with
  | [flag, x] =>
    if flag = 192 then Except.ok ⟨(x : ZMod 13), 0⟩ else Except.error DecodeError.BadPoint
  | _ => Except.error DecodeError.IncorrectSize

/-- Modelled from the spec: compressed-encoding of a G2 point, flag 224. -/
def G2Point.as_bytes (p : G2Point) : List Nat := [224, p.val.val]

/-- Modelled from the spec: decoding of a G2 point: fails on wrong length
or invalid flag bits; performs no subgroup-membership check. -/
def G2Point.from_bytes (b : List Nat) : Except DecodeError G2Point :=
  match b with
  | [flag, x] =>
    if flag = 224 then Except.ok ⟨(x : ZMod 26), 0⟩ else Except.error DecodeError.BadPoint
  | _ => Except.error DecodeError.IncorrectSize

/-- Modelled from the spec: the single-party PublicKey, a wrapper around a
G1 point (missing keys.rs). -/
structure PublicKey where
  point : G1Point
deriving DecidableEq

/-- Modelled from the spec: the single-party Signature, a wrapper around a
G2 point (missing signature.rs). -/
structure Signature where
  point : G2Point
deriving DecidableEq

/-- From the source: AggregatePublicKey, a single G1 point. -/
structure AggregatePublicKey where
  point : G1Point
deriving DecidableEq

/-- From the source: AggregateSignature, a single G2 point. -/
structure AggregateSignature where
  point : G2Point
deriving DecidableEq

/-- From the source: a new aggregate public key, the point at infinity. -/
def AggregatePublicKey.new : AggregatePublicKey := ⟨G1Point.new⟩

/-- From the source: from_public_keys folds point addition over the given
keys starting from new() and then normalizes the point to affine; the
second component counts the affine-normalization calls performed. -/
def AggregatePublicKey.from_public_keysT (keys : List PublicKey) : AggregatePublicKey × Nat :=
  let agg0 := AggregatePublicKey.new
  let p := keys.foldl (fun q k => q.add k.point) agg0.point
  let pa := G1Point.affineT p
  (⟨pa.1⟩, pa.2)

/-- From the source: from_public_keys (result only). -/
def AggregatePublicKey.from_public_keys (keys : List PublicKey) : AggregatePublicKey :=
  (AggregatePublicKey.from_public_keysT keys).1

/-- From the source: add one PublicKey to the aggregate; the commented-out
normalization is not performed, so the affine-call count is 0. -/
def AggregatePublicKey.addT (a : AggregatePublicKey) (public_key : PublicKey) :
    AggregatePublicKey × Nat := (⟨a.point.add public_key.point⟩, 0)

/-- From the source: add one PublicKey to the aggregate (result only). -/
def AggregatePublicKey.add (a : AggregatePublicKey) (public_key : PublicKey) :
    AggregatePublicKey := (a.addT public_key).1

/-- From the source: merge another AggregatePublicKey in; no normalization,
so the affine-call count is 0. -/
def AggregatePublicKey.add_aggregateT (a b : AggregatePublicKey) : AggregatePublicKey × Nat :=
  (⟨a.point.add b.point⟩, 0)

/-- From the source: merge another AggregatePublicKey in (result only). -/
def AggregatePublicKey.add_aggregate (a b : AggregatePublicKey) : AggregatePublicKey :=
  (a.add_aggregateT b).1

/-- From the source: decode an AggregatePublicKey from compressed bytes. -/
def AggregatePublicKey.from_bytes (b : List Nat) : Except DecodeError AggregatePublicKey :=
  (G1Point.from_bytes b).map (fun p => ⟨p⟩)

/-- From the source: encode the AggregatePublicKey to compressed bytes. -/
def AggregatePublicKey.as_bytes (a : AggregatePublicKey) : List Nat := a.point.as_bytes

/-- From the source: a new aggregate signature, the point at infinity. -/
def AggregateSignature.new : AggregateSignature := ⟨G2Point.new⟩

/-- From the source: add one Signature to the aggregate; no normalization. -/
def AggregateSignature.add (a : AggregateSignature) (signature : Signature) :
    AggregateSignature := ⟨a.point.add signature.point⟩

/-- From the source: merge another AggregateSignature in; no normalization. -/
def AggregateSignature.add_aggregate (a b : AggregateSignature) : AggregateSignature :=
  ⟨a.point.add b.point⟩

/-- From the source: decode an AggregateSignature from compressed bytes. -/
def AggregateSignature.from_bytes (b : List Nat) : Except DecodeError AggregateSignature :=
  (G2Point.from_bytes b).map (fun p => ⟨p⟩)

/-- From the source: encode the AggregateSignature to compressed bytes. -/
def AggregateSignature.as_bytes (a : AggregateSignature) : List Nat := a.point.as_bytes

/-- From the source: FastAggregateVerify.  Rejects when the signature point
fails the subgroup check; otherwise aggregates the public keys, hashes the
message, converts clones of the three points to affine and runs the
combined paired-pairing check.  Returns, besides the boolean, the number
of pairing evaluations performed and the post-state of the receiver (the
receiver is an immutable reference; all point work happens on clones). -/
def AggregateSignature.fast_aggregate_verifyT (self : AggregateSignature) (msg : List Nat)
    (public_keys : List PublicKey) : Bool × Nat × AggregateSignature :=
  if subgroup_check_g2 self.point = false then (false, 0, self)
  else
    let aggregate_public_key := AggregatePublicKey.from_public_keys public_keys
    let sig_point := self.point
    let key_point := aggregate_public_key.point
    let msg_hash_point := hash_to_curve_g2 msg
    let sig_point2 := sig_point.affine
    let key_point2 := key_point.affine
    let msg_hash_point2 := msg_hash_point.affine
    let generator_g1_negative := G1Point.generator.neg
    let e := ate2_evaluationT sig_point2 generator_g1_negative msg_hash_point2 key_point2
    (e.1, e.2, self)

/-- From the source: FastAggregateVerify, boolean result only. -/
def AggregateSignature.fast_aggregate_verify (self : AggregateSignature) (msg : List Nat)
    (public_keys : List PublicKey) : Bool :=
  (self.fast_aggregate_verifyT msg public_keys).1

/-- From the source: FastAggregateVerify with a pre-aggregated public key.
Identical protocol except that the caller supplies the aggregated key.
Returns, besides the boolean, the number of pairing evaluations performed
and the post-states of the receiver and of the aggregate public key. -/
def AggregateSignature.fast_aggregate_verify_pre_aggregatedT (self : AggregateSignature)
    (msg : List Nat) (aggregate_public_key : AggregatePublicKey) :
    Bool × Nat × AggregateSignature × AggregatePublicKey :=
  if subgroup_check_g2 self.point = false then (false, 0, self, aggregate_public_key)
  else
    let sig_point := self.point
    let key_point := aggregate_public_key.point
    let sig_point2 := sig_point.affine
    let key_point2 := key_point.affine
    let msg_hash_point := (hash_to_curve_g2 msg).affine
    let generator_g1_negative := G1Point.generator.neg
    let e := ate2_evaluationT sig_point2 generator_g1_negative msg_hash_point key_point2
    (e.1, e.2, self, aggregate_public_key)

/-- From the source: FastAggregateVerify with a pre-aggregated public key,
boolean result only. -/
def AggregateSignature.fast_aggregate_verify_pre_aggregated (self : AggregateSignature)
    (msg : List Nat) (aggregate_public_key : AggregatePublicKey) : Bool :=
  (self.fast_aggregate_verify_pre_aggregatedT msg aggregate_public_key).1

/-- From the source: one signature set of a batch: an AggregateSignature, a
list of PublicKeys and a message. -/
structure SigSet where
  sig : AggregateSignature
  keys : List PublicKey
  msg : List Nat
deriving DecidableEq

/-- From the source: read 8 big-endian random bytes as an i64.  The random
source is embedded as a stream of u64 draws (a function from draw index to
Nat, reduced mod 2 to the 64); this value is reinterpreted in two
complement as an integer in the i64 range. -/
def i64_of_u64 (n : Nat) : Int :=
  if n < 2 ^ 63 then (n : Int) else (n : Int) - 2 ^ 64

/-- From the source: the i64 absolute value with Rust release-build
overflow semantics: the absolute value of the minimal i64 wraps to
itself (and so stays negative). -/
def i64_abs (x : Int) : Int := if x = -(2 ^ 63) then x else |x|

/-- From the source: the while loop drawing a random scalar: draw 8 bytes,
take the absolute value of the i64 they encode, retry while the result is
0.  Embedded with fuel bounding the number of draws; Option.none stands
for the loop not terminating within the fuel.  Returns the scalar and the
next cursor position in the random stream. -/
def drawRand (stream : Nat → Nat) : Nat → Nat → Option (Int × Nat)
  | 0, _ => none
  | fuel + 1, c =>
    let r := i64_abs (i64_of_u64 (stream c % 2 ^ 64))
    if r = 0 then drawRand stream fuel (c + 1) else some (r, c + 1)

/-- From the source: the loop body of verify_multiple_aggregate_signatures,
one iteration per signature set: draw a non-zero random scalar, hash the
message, aggregate and scale the public keys, convert to affine, add the
pairing term to the accumulator and the scaled signature to the running
G2 sum.  Threads the stream cursor, the pairing accumulator, the running
signature sum and the post-states of the consumed sets. -/
def vmasLoop (stream : Nat → Nat) (fuel : Nat) :
    List SigSet → Nat → List (ZMod 26 × ZMod 13) → G2Point → List SigSet →
    Option (List (ZMod 26 × ZMod 13) × G2Point × List SigSet)
  | [], _, acc, fs, post => some (acc, fs, post)
  | s :: rest, c, acc, fs, post =>
    match drawRand stream fuel c with
    | none => none
    | some (r, cNext) =>
      let hash_point := hash_to_curve_g2 s.msg
      let aggregate_public_key := (AggregatePublicKey.from_public_keys s.keys).point
      let aggregate_public_key2 := aggregate_public_key.mul r
      let hash_point2 := hash_point.affine
      let aggregate_public_key3 := aggregate_public_key2.affine
      let acc2 := pair_another acc hash_point2 aggregate_public_key3
      let fs2 := fs.add (s.sig.point.mul r)
      vmasLoop stream fuel rest cNext acc2 fs2 (post ++ [s])

/-- From the source: verify_multiple_aggregate_signatures.  Runs the loop
over all sets starting from the empty accumulator and the G2 identity,
then adds the term of the running sum against the negated G1 generator,
computes the single Miller loop and one final exponentiation and tests
for the identity.  Returns the boolean together with the post-states of
the consumed sets; Option.none stands for a non-terminating scalar draw. -/
def verify_multiple_aggregate_signaturesT (stream : Nat → Nat) (fuel : Nat)
    (signature_sets : List SigSet) : Option (Bool × List SigSet) :=
  match vmasLoop stream fuel signature_sets 0 pair_initmp G2Point.new [] with
  | none => none
  | some (acc, final_agg_sig, post) =>
    let negative_g1 := G1Point.generator.neg
    let final_agg_sig2 := final_agg_sig.affine
    let acc2 := pair_another acc final_agg_sig2 negative_g1
    let v := pair_miller acc2
    let v2 := pair_fexp v
    some (isunity v2, post)

/-- From the source: verify_multiple_aggregate_signatures, boolean only. -/
def verify_multiple_aggregate_signatures (stream : Nat → Nat) (fuel : Nat)
    (signature_sets : List SigSet) : Option Bool :=
  (verify_multiple_aggregate_signaturesT stream fuel signature_sets).map Prod.fst

/-- Following the spec: the list of random scalars the batch verification
draws for the given sets, starting at the given stream cursor, together
with the final cursor; mirrors the draw loop exactly. -/
def scalarsFrom (stream : Nat → Nat) (fuel : Nat) :
    List SigSet → Nat → Option (List Int × Nat)
  | [], c => some ([], c)
  | _ :: rest, c =>
    match drawRand stream fuel c with
    | none => none
    | some (r, cNext) =>
      (scalarsFrom stream fuel rest cNext).map (fun rc => (r :: rc.1, rc.2))

/-- Following the spec: the mathematical statement the batch verification
is claimed to decide: the product (sum, in the additive model) of the
pairings of the hashed message of each set against its scaled aggregate
public key, together with the pairing of the scaled signature sum against
the negated G1 generator, is the identity of the target group. -/
def batchCheck (rs : List Int) (sets : List SigSet) : Bool :=
  let pairTerms := (rs.zip sets).map (fun p =>
    pairingE (hash_to_curve_g2 p.2.msg).val
      ((p.1 : ZMod 13) * (AggregatePublicKey.from_public_keys p.2.keys).point.val))
  let sPrime := ((rs.zip sets).map (fun p => (p.1 : ZMod 26) * p.2.sig.point.val)).sum
  isunity (pairTerms.sum + pairingE sPrime (G1Point.generator.neg).val)

/-- The list of (G2, G1) pairing terms the batch loop pushes onto the
accumulator, given the drawn scalars, newest term first once reversed. -/
def termList (rs : List Int) (sets : List SigSet) : List (ZMod 26 × ZMod 13) :=
  (rs.zip sets).map (fun p =>
    (((hash_to_curve_g2 p.2.msg).affine).val,
     (((AggregatePublicKey.from_public_keys p.2.keys).point.mul p.1).affine).val))

lemma g1_foldl_add_val {α : Type} (l : List α) (f : α → G1Point) : ∀ g : G1Point,
    (l.foldl (fun q x => q.add (f x)) g).val = g.val + (l.map (fun x => (f x).val)).sum := by
  induction l with
  | nil => intro g; simp
  | cons a t ih =>
    intro g
    simp only [List.foldl_cons, List.map_cons, List.sum_cons, ih]
    show (g.add (f a)).val + _ = _
    simp [G1Point.add, add_assoc]

lemma g2_foldl_add_val {α : Type} (l : List α) (f : α → G2Point) : ∀ g : G2Point,
    (l.foldl (fun q x => q.add (f x)) g).val = g.val + (l.map (fun x => (f x).val)).sum := by
  induction l with
  | nil => intro g; simp
  | cons a t ih =>
    intro g
    simp only [List.foldl_cons, List.map_cons, List.sum_cons, ih]
    show (g.add (f a)).val + _ = _
    simp [G2Point.add, add_assoc]

lemma apk_foldl_point (l : List PublicKey) : ∀ g : AggregatePublicKey,
    (l.foldl AggregatePublicKey.add g).point = l.foldl (fun q k => q.add k.point) g.point := by
  induction l with
  | nil => intro g; rfl
  | cons a t ih =>
    intro g
    simp only [List.foldl_cons, ih]
    rfl

lemma asig_foldl_point (l : List Signature) : ∀ g : AggregateSignature,
    (l.foldl AggregateSignature.add g).point = l.foldl (fun q s => q.add s.point) g.point := by
  induction l with
  | nil => intro g; rfl
  | cons a t ih =>
    intro g
    simp only [List.foldl_cons, ih]
    rfl

lemma g1_add_val (p q : G1Point) : (p.add q).val = p.val + q.val := rfl

lemma g2_add_val (p q : G2Point) : (p.add q).val = p.val + q.val := rfl

lemma pk_fold_val (l : List PublicKey) (g : G1Point) :
    (l.foldl (fun q k => q.add k.point) g).val = g.val + (l.map (fun k => k.point.val)).sum :=
  g1_foldl_add_val l (fun k => k.point) g

lemma sig_fold_val (l : List Signature) (g : G2Point) :
    (l.foldl (fun q s => q.add s.point) g).val = g.val + (l.map (fun s => s.point.val)).sum :=
  g2_foldl_add_val l (fun s => s.point) g

lemma pair_fexp_add (a b : ZMod 13) : pair_fexp (a + b) = pair_fexp a + pair_fexp b := by
  simp [pair_fexp]; ring

lemma pair_fexp_list_sum (l : List (ZMod 13)) :
    pair_fexp l.sum = (l.map pair_fexp).sum := by
  induction l with
  | nil => simp [pair_fexp]
  | cons a t ih => simp [pair_fexp_add, ih]

lemma vmasLoop_eq_scalars (stream : Nat → Nat) (fuel : Nat) : ∀ (sets : List SigSet) (c : Nat)
    (acc : List (ZMod 26 × ZMod 13)) (fs : G2Point) (post : List SigSet),
    vmasLoop stream fuel sets c acc fs post =
      (scalarsFrom stream fuel sets c).map (fun rc =>
        ((termList rc.1 sets).reverse ++ acc,
         (rc.1.zip sets).foldl (fun g p => g.add (p.2.sig.point.mul p.1)) fs,
         post ++ sets)) := by
  intro sets
  induction sets with
  | nil =>
    intro c acc fs post
    simp [vmasLoop, scalarsFrom, termList]
  | cons s rest ih =>
    intro c acc fs post
    cases hd : drawRand stream fuel c with
    | none => simp [vmasLoop, scalarsFrom, hd]
    | some rc =>
      obtain ⟨r, cNext⟩ := rc
      simp only [vmasLoop, scalarsFrom, hd]
      rw [ih]
      cases hs : scalarsFrom stream fuel rest cNext with
      | none => simp
      | some rsc =>
        obtain ⟨rs, c2⟩ := rsc
        simp only [Option.map_some, Option.map_map]
        simp [termList, pair_another, List.append_assoc]

/-- C1: for every message and every list of public keys, both
fast_aggregate_verify and fast_aggregate_verify_pre_aggregated return
false whenever the aggregate signature G2 point fails the
subgroup-membership check, and perform zero pairing evaluations. -/
theorem C1_subgroup_rejection (sig : AggregateSignature) (msg : List Nat)
    (keys : List PublicKey) (apk : AggregatePublicKey)
    (h : subgroup_check_g2 sig.point = false) :
    sig.fast_aggregate_verifyT msg keys = (false, 0, sig) ∧
    sig.fast_aggregate_verify_pre_aggregatedT msg apk = (false, 0, sig, apk) := by
  constructor
  · simp [AggregateSignature.fast_aggregate_verifyT, h]
  · simp [AggregateSignature.fast_aggregate_verify_pre_aggregatedT, h]

/-- Witness for C1: a concrete G2 point outside the prime-order subgroup is
rejected with no pairing evaluated by both entry points. -/
theorem C1_subgroup_rejection_witness :
    (⟨⟨1, 0⟩⟩ : AggregateSignature).fast_aggregate_verifyT [] [] =
      (false, 0, (⟨⟨1, 0⟩⟩ : AggregateSignature)) ∧
    (⟨⟨1, 0⟩⟩ : AggregateSignature).fast_aggregate_verify_pre_aggregatedT []
        AggregatePublicKey.new =
      (false, 0, (⟨⟨1, 0⟩⟩ : AggregateSignature), AggregatePublicKey.new) :=
  C1_subgroup_rejection ⟨⟨1, 0⟩⟩ [] [] AggregatePublicKey.new (by decide)

/-- C2: for every message and every list of public keys,
fast_aggregate_verify returns the same boolean as
fast_aggregate_verify_pre_aggregated applied to the key list aggregated
by from_public_keys. -/
theorem C2_pre_aggregated_equivalence (sig : AggregateSignature) (msg : List Nat)
    (keys : List PublicKey) :
    sig.fast_aggregate_verify msg keys =
      sig.fast_aggregate_verify_pre_aggregated msg
        (AggregatePublicKey.from_public_keys keys) := by
  by_cases h : subgroup_check_g2 sig.point = false <;>
    simp [AggregateSignature.fast_aggregate_verify,
      AggregateSignature.fast_aggregate_verifyT,
      AggregateSignature.fast_aggregate_verify_pre_aggregated,
      AggregateSignature.fast_aggregate_verify_pre_aggregatedT, h]

/-- C10: for every random source and fuel, batch verification of an empty
batch returns true: the signature sum stays at the G2 identity, the only
pairing term is the one of the identity against the negated generator,
and the final identity test succeeds. -/
theorem C10_empty_batch (stream : Nat → Nat) (fuel : Nat) :
    verify_multiple_aggregate_signatures stream fuel [] = some true := by
  rfl

/-- C3 counterexample: the claim that every scalar actually used is
strictly positive fails: on the draw 2 to the 63 (8 bytes reading as the
minimal i64), the wrapping absolute value leaves the negative scalar
minus 2 to the 63, which the loop accepts since it is non-zero, and which
the batch then uses. -/
theorem C3_counterexample :
    drawRand (fun _ => 2 ^ 63) 1 0 = some (-(2 ^ 63), 1) ∧
    scalarsFrom (fun _ => 2 ^ 63) 1 [⟨AggregateSignature.new, [], []⟩] 0 =
      some ([-(2 ^ 63)], 1) ∧
    ¬ (0 : Int) < -(2 ^ 63) := by
  refine ⟨by decide, by decide, by decide⟩

/-- C3 amended: every random scalar the draw loop returns, and hence every
scalar the batch verification uses in the linear combination, is non-zero
(the loop redraws on zero); it is however not always strictly positive,
since the absolute value of the minimal i64 wraps to itself. -/
theorem C3_scalars_nonzero (stream : Nat → Nat) (fuel : Nat) :
    (∀ c r cNext, drawRand stream fuel c = some (r, cNext) → r ≠ 0) ∧
    (∀ sets c rs cNext, scalarsFrom stream fuel sets c = some (rs, cNext) →
      ∀ r ∈ rs, r ≠ 0) := by
  have hdraw : ∀ fuel c r cNext, drawRand stream fuel c = some (r, cNext) → r ≠ 0 := by
    intro fuel
    induction fuel with
    | zero => intro c r cNext h; simp [drawRand] at h
    | succ n ih =>
      intro c r cNext h
      simp only [drawRand] at h
      split at h
      · exact ih _ _ _ h
      · rename_i hne
        injection h with h2
        injection h2 with h3 h4
        exact fun h0 => hne (h3.trans h0)
  refine ⟨hdraw fuel, ?_⟩
  intro sets
  induction sets with
  | nil =>
    intro c rs cNext h r hr
    simp only [scalarsFrom, Option.some.injEq, Prod.mk.injEq] at h
    obtain ⟨h1, h2⟩ := h
    subst h1
    simp at hr
  | cons s rest ih =>
    intro c rs cNext h r hr
    cases hd : drawRand stream fuel c with
    | none => simp [scalarsFrom, hd] at h
    | some rc =>
      obtain ⟨r0, c1⟩ := rc
      simp only [scalarsFrom, hd] at h
      cases hs : scalarsFrom stream fuel rest c1 with
      | none => rw [hs] at h; simp at h
      | some rsc =>
        obtain ⟨rs1, c2⟩ := rsc
        rw [hs] at h
        simp at h
        obtain ⟨h1, h2⟩ := h
        subst h1
        rcases List.mem_cons.mp hr with h0 | htail
        · rw [h0]; exact hdraw fuel c r0 c1 hd
        · exact ih c1 rs1 c2 hs r htail

/-- Witness for C3 amended: on the constant stream 1, the first draw yields
the scalar 1 and the batch over one set uses exactly the scalar 1, both
non-zero. -/
theorem C3_scalars_nonzero_witness :
    (1 : Int) ≠ 0 ∧ ∀ r ∈ [(1 : Int)], r ≠ 0 :=
  ⟨(C3_scalars_nonzero (fun _ => 1) 1).1 0 1 1 (by decide),
   (C3_scalars_nonzero (fun _ => 1) 1).2 [⟨AggregateSignature.new, [], []⟩] 0 [1] 1
     (by decide)⟩

/-- C5: for every permutation of a list of public keys, from_public_keys
yields the same affine-normalized aggregate G1 point, and for every
permutation of a list of signatures, repeated AggregateSignature.add
yields the same affine-normalized G2 point. -/
theorem C5_order_independence (keys keys2 : List PublicKey) (hk : keys.Perm keys2)
    (sigs sigs2 : List Signature) (hsig : sigs.Perm sigs2) :
    AggregatePublicKey.from_public_keys keys = AggregatePublicKey.from_public_keys keys2 ∧
    (sigs.foldl AggregateSignature.add AggregateSignature.new).point.affine =
      (sigs2.foldl AggregateSignature.add AggregateSignature.new).point.affine := by
  constructor
  · have hv := (hk.map (fun k => k.point.val)).sum_eq
    simp only [AggregatePublicKey.from_public_keys, AggregatePublicKey.from_public_keysT,
      AggregatePublicKey.new, G1Point.affineT, AggregatePublicKey.mk.injEq, G1Point.mk.injEq]
    exact ⟨by rw [pk_fold_val, pk_fold_val, hv], trivial⟩
  · have hv := (hsig.map (fun s => s.point.val)).sum_eq
    rw [asig_foldl_point, asig_foldl_point]
    simp only [G2Point.affine, G2Point.affineT, G2Point.mk.injEq]
    exact ⟨by rw [sig_fold_val, sig_fold_val, hv], trivial⟩

/-- Witness for C5: two concrete two-element collections, swapped. -/
theorem C5_order_independence_witness :
    AggregatePublicKey.from_public_keys [⟨⟨1, 0⟩⟩, ⟨⟨2, 0⟩⟩] =
      AggregatePublicKey.from_public_keys [⟨⟨2, 0⟩⟩, ⟨⟨1, 0⟩⟩] ∧
    ([⟨⟨2, 0⟩⟩, ⟨⟨4, 0⟩⟩].foldl AggregateSignature.add AggregateSignature.new).point.affine =
      ([⟨⟨4, 0⟩⟩, ⟨⟨2, 0⟩⟩].foldl AggregateSignature.add AggregateSignature.new).point.affine :=
  C5_order_independence [⟨⟨1, 0⟩⟩, ⟨⟨2, 0⟩⟩] [⟨⟨2, 0⟩⟩, ⟨⟨1, 0⟩⟩] (by decide)
    [⟨⟨2, 0⟩⟩, ⟨⟨4, 0⟩⟩] [⟨⟨4, 0⟩⟩, ⟨⟨2, 0⟩⟩] (by decide)

/-- C6: for every collection split into two parts A and B (the collection
being any permutation of A followed by B), aggregating the whole
collection directly equals aggregating the parts separately and merging
them with add_aggregate, compared after affine normalization; for public
keys and for signatures alike. -/
theorem C6_merge_partition (l A B : List PublicKey) (hk : l.Perm (A ++ B))
    (ls As Bs : List Signature) (hsig : ls.Perm (As ++ Bs)) :
    ((AggregatePublicKey.from_public_keys A).add_aggregate
        (AggregatePublicKey.from_public_keys B)).point.affine =
      (AggregatePublicKey.from_public_keys l).point.affine ∧
    ((As.foldl AggregateSignature.add AggregateSignature.new).add_aggregate
        (Bs.foldl AggregateSignature.add AggregateSignature.new)).point.affine =
      (ls.foldl AggregateSignature.add AggregateSignature.new).point.affine := by
  constructor
  · have hv := (hk.map (fun k => k.point.val)).sum_eq
    simp only [AggregatePublicKey.add_aggregate, AggregatePublicKey.add_aggregateT,
      AggregatePublicKey.from_public_keys, AggregatePublicKey.from_public_keysT,
      AggregatePublicKey.new, G1Point.affineT, G1Point.affine, g1_add_val,
      G1Point.mk.injEq]
    refine ⟨?_, trivial⟩
    rw [pk_fold_val, pk_fold_val, pk_fold_val, hv, List.map_append, List.sum_append]
    simp [G1Point.new]
  · have hv := (hsig.map (fun s => s.point.val)).sum_eq
    simp only [AggregateSignature.add_aggregate]
    rw [asig_foldl_point, asig_foldl_point, asig_foldl_point]
    simp only [G2Point.affine, G2Point.affineT, g2_add_val, G2Point.mk.injEq]
    refine ⟨?_, trivial⟩
    rw [sig_fold_val, sig_fold_val, sig_fold_val, hv, List.map_append, List.sum_append]
    simp [AggregateSignature.new, G2Point.new]

/-- Witness for C6: a concrete four-element collection split in halves. -/
theorem C6_merge_partition_witness :
    ((AggregatePublicKey.from_public_keys [⟨⟨1, 0⟩⟩]).add_aggregate
        (AggregatePublicKey.from_public_keys [⟨⟨2, 0⟩⟩])).point.affine =
      (AggregatePublicKey.from_public_keys [⟨⟨1, 0⟩⟩, ⟨⟨2, 0⟩⟩]).point.affine ∧
    (([(⟨⟨2, 0⟩⟩ : Signature)].foldl AggregateSignature.add
          AggregateSignature.new).add_aggregate
        ([(⟨⟨4, 0⟩⟩ : Signature)].foldl AggregateSignature.add
          AggregateSignature.new)).point.affine =
      ([(⟨⟨2, 0⟩⟩ : Signature), ⟨⟨4, 0⟩⟩].foldl AggregateSignature.add
          AggregateSignature.new).point.affine :=
  C6_merge_partition [⟨⟨1, 0⟩⟩, ⟨⟨2, 0⟩⟩] [⟨⟨1, 0⟩⟩] [⟨⟨2, 0⟩⟩] (by decide)
    [⟨⟨2, 0⟩⟩, ⟨⟨4, 0⟩⟩] [⟨⟨2, 0⟩⟩] [⟨⟨4, 0⟩⟩] (by decide)

/-- C7: decoding the encoding of an aggregate public key or aggregate
signature succeeds and yields an aggregate carrying the same mathematical
point (in affine form), and the verification outcome of
fast_aggregate_verify_pre_aggregated is unchanged when both aggregates
are first round-tripped through the byte codec. -/
theorem C7_codec_roundtrip (apk : AggregatePublicKey) (asig : AggregateSignature)
    (msg : List Nat) :
    AggregatePublicKey.from_bytes apk.as_bytes = Except.ok ⟨⟨apk.point.val, 0⟩⟩ ∧
    AggregateSignature.from_bytes asig.as_bytes = Except.ok ⟨⟨asig.point.val, 0⟩⟩ ∧
    (⟨⟨asig.point.val, 0⟩⟩ : AggregateSignature).fast_aggregate_verify_pre_aggregated msg
        ⟨⟨apk.point.val, 0⟩⟩ =
      asig.fast_aggregate_verify_pre_aggregated msg apk := by
  refine ⟨?_, ?_, ?_⟩
  · simp [AggregatePublicKey.from_bytes, AggregatePublicKey.as_bytes, G1Point.from_bytes,
      G1Point.as_bytes, Except.map, ZMod.natCast_val, ZMod.cast_id]
  · simp [AggregateSignature.from_bytes, AggregateSignature.as_bytes, G2Point.from_bytes,
      G2Point.as_bytes, Except.map, ZMod.natCast_val, ZMod.cast_id]
  · have h0 : subgroup_check_g2 (⟨asig.point.val, 0⟩ : G2Point) =
        subgroup_check_g2 asig.point := rfl
    by_cases h : subgroup_check_g2 asig.point = false <;>
      simp [AggregateSignature.fast_aggregate_verify_pre_aggregated,
        AggregateSignature.fast_aggregate_verify_pre_aggregatedT, h0, h,
        G2Point.affine, G2Point.affineT, G1Point.affine, G1Point.affineT]

/-- C8: from_public_keys equals the fold of the add method over the given
keys starting from the identity of new(), followed by exactly one affine
normalization at the end (affine-call count 1); add and add_aggregate
perform no normalization at all (affine-call count 0). -/
theorem C8_fold_single_normalization (keys : List PublicKey) (a b : AggregatePublicKey)
    (pk : PublicKey) :
    AggregatePublicKey.from_public_keysT keys =
      (⟨(keys.foldl AggregatePublicKey.add AggregatePublicKey.new).point.affine⟩, 1) ∧
    a.addT pk = (⟨a.point.add pk.point⟩, 0) ∧
    a.add_aggregateT b = (⟨a.point.add b.point⟩, 0) := by
  refine ⟨?_, rfl, rfl⟩
  rw [apk_foldl_point]
  rfl

/-- C9: the three verification entry points leave every aggregate they
consume unchanged: the receiver of fast_aggregate_verify, the receiver
and the aggregate public key of fast_aggregate_verify_pre_aggregated, and
every signature set consumed by verify_multiple_aggregate_signatures come
out of the call exactly as they went in. -/
theorem C9_inputs_unchanged (sig : AggregateSignature) (msg : List Nat)
    (keys : List PublicKey) (apk : AggregatePublicKey) (stream : Nat → Nat) (fuel : Nat)
    (sets : List SigSet) (r : Bool × List SigSet)
    (h : verify_multiple_aggregate_signaturesT stream fuel sets = some r) :
    (sig.fast_aggregate_verifyT msg keys).2.2 = sig ∧
    (sig.fast_aggregate_verify_pre_aggregatedT msg apk).2.2 = (sig, apk) ∧
    r.2 = sets := by
  refine ⟨?_, ?_, ?_⟩
  · by_cases hc : subgroup_check_g2 sig.point = false <;>
      simp [AggregateSignature.fast_aggregate_verifyT, hc]
  · by_cases hc : subgroup_check_g2 sig.point = false <;>
      simp [AggregateSignature.fast_aggregate_verify_pre_aggregatedT, hc]
  · rw [verify_multiple_aggregate_signaturesT, vmasLoop_eq_scalars] at h
    cases hs : scalarsFrom stream fuel sets 0 with
    | none => rw [hs] at h; simp at h
    | some rsc =>
      rw [hs] at h
      simp at h
      obtain ⟨b, post⟩ := r
      simp only [Prod.mk.injEq] at h
      exact h.2.symm

/-- Witness for C9: a concrete one-set batch with the constant stream 1
terminates with its set unchanged, and the single verifications return
their concrete inputs unchanged. -/
theorem C9_inputs_unchanged_witness :
    (AggregateSignature.new.fast_aggregate_verifyT [] []).2.2 = AggregateSignature.new ∧
    (AggregateSignature.new.fast_aggregate_verify_pre_aggregatedT []
        AggregatePublicKey.new).2.2 = (AggregateSignature.new, AggregatePublicKey.new) ∧
    ((true, [(⟨AggregateSignature.new, [], []⟩ : SigSet)]) : Bool × List SigSet).2 =
      [⟨AggregateSignature.new, [], []⟩] :=
  C9_inputs_unchanged AggregateSignature.new [] [] AggregatePublicKey.new (fun _ => 1) 1
    [⟨AggregateSignature.new, [], []⟩] (true, [⟨AggregateSignature.new, [], []⟩])
    (by decide)

/-- C4: batch verification returns exactly one boolean for the whole batch,
and whenever the scalar draws terminate it equals the identity test of
the product of the pairings of each hashed message against its scaled
aggregate public key together with the pairing of the scaled signature
sum against the negated G1 generator, computed with one Miller loop over
all terms and one final exponentiation. -/
theorem C4_batch_boolean_semantics (stream : Nat → Nat) (fuel : Nat) (sets : List SigSet) :
    verify_multiple_aggregate_signatures stream fuel sets =
      (scalarsFrom stream fuel sets 0).map (fun rc => batchCheck rc.1 sets) := by
  rw [verify_multiple_aggregate_signatures, verify_multiple_aggregate_signaturesT,
    vmasLoop_eq_scalars]
  cases hs : scalarsFrom stream fuel sets 0 with
  | none => rfl
  | some rsc =>
    obtain ⟨rs, c2⟩ := rsc
    show some _ = some _
    refine congrArg some ?_
    show isunity _ = batchCheck rs sets
    refine congrArg isunity ?_
    simp only [batchCheck, pair_another, pair_miller, pairingE, termList,
      List.append_nil, List.map_cons, List.sum_cons, List.map_reverse, List.sum_reverse,
      List.map_map, Function.comp_def, G2Point.affine, G2Point.affineT, G1Point.affine,
      G1Point.affineT, G1Point.mul, G2Point.mul]
    rw [pair_fexp_add, pair_fexp_list_sum]
    rw [g2_foldl_add_val]
    simp only [G2Point.new, G2Point.mul, List.map_map, Function.comp_def, zero_add,
      pair_initmp, List.append_nil, List.map_reverse, List.sum_reverse]
    ring

end MilagroBLS
